import Mathlib

/-!
Verification of the zim-mcp server core against its specification.

The Python sources are embedded shallowly:
* `LRUCache` and `validate_zim_file_path` from `src/zim_mcp/utils.py`;
* the content-extraction pipeline from `src/zim_mcp/content_extractor.py`;
* `_get_zim_file_info` / `discover_zim_files` from `src/zim_mcp/zim_manager.py`;
* the multi-archive random-entry distribution from `src/server.py`.

External collaborators (the libzim archive reader, MarkItDown, UTF-8
decoding, base64, float formatting, the wall clock, the filesystem) are
modelled as explicit parameters; Python exceptions are modelled with
`Option` / `Except`.
-/

set_option linter.unusedSectionVars false

namespace ZimMcp

/-! ### Association-list primitives used to model Python dicts and lists

`lookupKey` models `dict.__getitem__` / `in`, `updateVal` models
`dict.__setitem__` on a present key (value replaced in place), `removeKey`
models `del dict[k]`, and `removeElem` models `list.remove` (first
occurrence). -/

def lookupKey {α β : Type} [DecidableEq α] : List (α × β) → α → Option β
  | [], _ => none
  | (k', v) :: rest, k => if k' = k then some v else lookupKey rest k

def updateVal {α β : Type} [DecidableEq α] : List (α × β) → α → β → List (α × β)
  | [], _, _ => []
  | (k', v') :: rest, k, v =>
      if k' = k then (k, v) :: rest else (k', v') :: updateVal rest k v

def removeKey {α β : Type} [DecidableEq α] : List (α × β) → α → List (α × β)
  | [], _ => []
  | (k', v') :: rest, k => if k' = k then rest else (k', v') :: removeKey rest k

def removeElem {α : Type} [DecidableEq α] : List α → α → List α
  | [], _ => []
  | x :: rest, a => if x = a then rest else x :: removeElem rest a


/-! ### `LRUCache` (utils.py lines 101-142)

Faithful embedding of the Python class.  The Python dict `self.cache` is an
insertion-ordered association list, `self.access_order` a plain list.  The
two statements that can raise in Python — `self.access_order.pop(0)` on an
empty list (IndexError) and `del self.cache[oldest_key]` on an absent key
(KeyError) — are modelled by `put` returning `none`.  The
`self.access_order.remove(key)` in the hit branches is only reached when the
key is present, where `List.erase` agrees with Python `list.remove`. -/

structure LRUCache (α β : Type) where
  max_size : Nat
  cache : List (α × β)
  access_order : List α

namespace LRUCache

variable {α β : Type} [DecidableEq α]

def empty (maxSize : Nat) : LRUCache α β :=
  { max_size := maxSize, cache := [], access_order := [] }

def size (s : LRUCache α β) : Nat := s.cache.length

/-- `LRUCache.get`: on a hit, move the key to the most-recent end. -/
def get (s : LRUCache α β) (k : α) : Option β × LRUCache α β :=
  match lookupKey s.cache k with
  | some v => (some v, { s with access_order := removeElem s.access_order k ++ [k] })
  | none => (none, s)

/-- `LRUCache.put`: update-in-place on a hit; otherwise evict the head of
`access_order` when `len(self.cache) >= self.max_size`, then append. -/
def put (s : LRUCache α β) (k : α) (v : β) : Option (LRUCache α β) :=
  if (lookupKey s.cache k).isSome then
    some { s with
            cache := updateVal s.cache k v,
            access_order := removeElem s.access_order k ++ [k] }
  else if s.max_size ≤ s.cache.length then
    match s.access_order with
    | [] => none
    | oldest :: rest =>
        if (lookupKey s.cache oldest).isSome then
          some { s with
                  cache := removeKey s.cache oldest ++ [(k, v)],
                  access_order := rest ++ [k] }
        else none
  else
    some { s with
            cache := s.cache ++ [(k, v)],
            access_order := s.access_order ++ [k] }

def clear (s : LRUCache α β) : LRUCache α β :=
  { s with cache := [], access_order := [] }

/-- Run a sequence of `put` operations from the empty cache. -/
def runPuts (maxSize : Nat) (ops : List (α × β)) : Option (LRUCache α β) :=
  ops.foldlM (fun s kv => s.put kv.1 kv.2) (empty maxSize)

/-- The representation invariant maintained by every reachable cache state:
`access_order` is a duplicate-free permutation of the dict's keys and the
occupancy is bounded by the capacity. -/
def Inv (K : Nat) (s : LRUCache α β) : Prop :=
  s.max_size = K ∧ s.access_order.Perm (s.cache.map Prod.fst) ∧
    s.access_order.Nodup ∧ s.cache.length ≤ K

end LRUCache

/-! ### Content extraction pipeline (content_extractor.py)

External collaborators are abstracted as function parameters; Python wall
clock readings are abstracted as the single elapsed-milliseconds value
`(time.time() - start_time) * 1000` computed by the call being modelled. -/

/-- Modelled from the spec: `zim_mcp/config.py` is not among the given
sources; §6 of the spec lists the configuration surface consumed by the core
(root directory path, maximum content length, archive handle cache capacity,
maximum archive file size eligible for eager metadata loading). Paths are
modelled as lists of components. -/
structure ZimServerConfig where
  zim_files_directory : List String
  max_content_length : Nat
  archive_cache_size : Nat
  max_zim_file_size_mb : Nat

/-- A resolved libzim entry as the pipeline sees it: `entry.path`,
`entry.title`, `entry.is_redirect`, and, through `entry.get_item()`, the raw
content bytes (`bytes(item.content)`) and the declared MIME type string
(`item.mimetype`; the Python `or` default makes the empty string fall back to
`application/octet-stream`). -/
structure Entry where
  path : String
  title : String
  is_redirect : Bool
  content : List Nat
  mimetype : String

/-- External collaborators of the pipeline:
`utf8decode` models `bytes.decode("utf-8", errors="replace")` (total: never
raises), `b64encode` models `base64.b64encode(...).decode("ascii")`,
`convertHtml` models MarkItDown's `convert_stream` (`Except.error` carries
`str(e)` of a raised exception), `jsonPretty` models
`json.dumps(json.loads(raw), indent=2)` with `none` for `JSONDecodeError`,
and `fmtKB` / `fmtMs` / `fmtComma` model the Python float and thousands
formatting `"%.1f"` / `"{:,}"` (floating point abstracted). -/
structure Collaborators where
  utf8decode : List Nat → String
  b64encode : List Nat → String
  convertHtml : List Nat → Except String String
  jsonPretty : String → Option String
  fmtKB : Nat → String
  fmtMs : ℚ → String
  fmtComma : Nat → String

/-- `ExtractedContentInfo` dataclass. -/
structure ExtractedContentInfo where
  path : String
  title : String
  content : String
  content_type : String
  content_length : Nat
  mime_type : String
  processing_time_ms : ℚ
  is_redirect : Bool
deriving DecidableEq

/-- Python `str.startswith`: prefix test on the codepoint sequence. -/
def pyStartsWith (s p : String) : Bool := p.data.isPrefixOf s.data

/-- `ContentExtractor._get_format_type`. -/
def get_format_type (mime_type : String) : String :=
  if pyStartsWith mime_type "text/html" then "markdown"
  else if pyStartsWith mime_type "text/" then "text"
  else if pyStartsWith mime_type "image/" then "image_metadata"
  else if pyStartsWith mime_type "application/json" then "json"
  else "binary_metadata"

/-- The footer string built by `ContentExtractor._add_metadata_footer`
(`size_kb = original_size / 1024` is formatted by `fmtKB` from the byte
count). -/
def metadata_footer (C : Collaborators) (mime_type : String)
    (original_size : Nat) (processing_ms : ℚ) : String :=
  "\n\n---\n\n**Entry Metadata**\n- **Original Format**: " ++ mime_type ++
    "\n- **Converted To**: Markdown\n- **Original Size**: " ++
    C.fmtKB original_size ++ " KB\n- **Processing Time**: " ++
    C.fmtMs processing_ms ++ " ms\n"

/-- `ContentExtractor._add_metadata_footer`: `return content + footer`. -/
def add_metadata_footer (C : Collaborators) (content : String)
    (mime_type : String) (original_size : Nat) (processing_ms : ℚ) : String :=
  content ++ metadata_footer C mime_type original_size processing_ms

/-- `ContentExtractor._convert_html_to_markdown`: MarkItDown result on
success; on any raised exception, catch and fall back to the failure notice
followed by the raw UTF-8-decoded body. -/
def convert_html_to_markdown (C : Collaborators) (content_bytes : List Nat) :
    String :=
  match C.convertHtml content_bytes with
  | .ok text => text
  | .error e =>
      "[MarkItDown conversion failed: " ++ e ++ "]\n\n" ++
        C.utf8decode content_bytes

/-- `ContentExtractor._handle_raw_output`: text types are UTF-8 decoded,
anything else is base64-wrapped; processing time is always `0.0`. -/
def handle_raw_output (C : Collaborators) (content_bytes : List Nat)
    (mime_type : String) : String × ℚ :=
  if pyStartsWith mime_type "text/" then
    (C.utf8decode content_bytes, 0)
  else
    ("[Base64 Encoded - " ++ mime_type ++ "]\n\n" ++ C.b64encode content_bytes,
      0)

/-- `ContentExtractor._handle_image_metadata`. -/
def handle_image_metadata (C : Collaborators) (content_bytes : List Nat)
    (mime_type path title : String) : String :=
  "# Image Entry\n\n**Title**: " ++ title ++ "\n**Path**: " ++ path ++
    "\n**MIME Type**: " ++ mime_type ++ "\n**Size**: " ++
    C.fmtKB content_bytes.length ++ " KB (" ++
    C.fmtComma content_bytes.length ++
    " bytes)\n\nThis is an image file. When accessed through the read_zim_entry tool,\nit will be returned as ImageContent for display in your interface.\n\n**Note**: Use `raw_output=True` to get base64-encoded image data if needed.\n"

/-- `ContentExtractor._handle_binary_metadata`. -/
def handle_binary_metadata (C : Collaborators) (content_bytes : List Nat)
    (mime_type : String) : String :=
  "# Binary Content\n\n**MIME Type**: " ++ mime_type ++ "\n**Size**: " ++
    C.fmtKB content_bytes.length ++ " KB (" ++
    C.fmtComma content_bytes.length ++
    " bytes)\n\nThis is binary content that cannot be displayed as text.\n\n**Options**:\n- Use `raw_output=True` to get base64-encoded data\n- This content type may not be suitable for text-based analysis\n"

/-- `ContentExtractor._process_by_mimetype`: single-step MIME-prefix
dispatch.  Every modelled collaborator is total, so the
`except Exception` catch-all of lines 188-191 has no reachable model state
and is omitted. -/
def process_by_mimetype (C : Collaborators) (elapsed_ms : ℚ)
    (content_bytes : List Nat) (mime_type path title : String) : String × ℚ :=
  if pyStartsWith mime_type "text/html" then
    let content := convert_html_to_markdown C content_bytes
    (add_metadata_footer C content mime_type content_bytes.length elapsed_ms,
      elapsed_ms)
  else if pyStartsWith mime_type "text/" then
    (C.utf8decode content_bytes, elapsed_ms)
  else if pyStartsWith mime_type "image/" then
    (handle_image_metadata C content_bytes mime_type path title, elapsed_ms)
  else if pyStartsWith mime_type "application/json" then
    match C.jsonPretty (C.utf8decode content_bytes) with
    | some pretty => (pretty, elapsed_ms)
    | none => (C.utf8decode content_bytes, elapsed_ms)
  else
    (handle_binary_metadata C content_bytes mime_type, elapsed_ms)

/-- The truncation marker appended by `_extract_from_entry`. -/
def truncation_marker : String :=
  "\n\n... [Content truncated at configured limit] ..."

/-- `ContentExtractor._extract_from_entry`: redirect short-circuit, raw or
MIME-dispatched processing, then truncation of the converted output at
`config.max_content_length` characters. -/
def extract_from_entry (C : Collaborators) (config : ZimServerConfig)
    (elapsed_ms : ℚ) (entry : Entry) (raw_output : Bool) :
    ExtractedContentInfo :=
  if entry.is_redirect then
    { path := entry.path, title := entry.title,
      content := "[This is a redirect entry]", content_type := "redirect",
      content_length := 0, mime_type := "redirect", processing_time_ms := 0,
      is_redirect := true }
  else
    let content_bytes := entry.content
    let mime_type :=
      if entry.mimetype = "" then "application/octet-stream"
      else entry.mimetype
    let pr :=
      if raw_output then handle_raw_output C content_bytes mime_type
      else
        process_by_mimetype C elapsed_ms content_bytes mime_type entry.path
          entry.title
    let format_type := if raw_output then "raw" else get_format_type mime_type
    let content :=
      if config.max_content_length < pr.1.length then
        pr.1.take config.max_content_length ++ truncation_marker
      else pr.1
    { path := entry.path, title := entry.title, content := content,
      content_type := format_type, content_length := content_bytes.length,
      mime_type := mime_type, processing_time_ms := pr.2,
      is_redirect := false }

/-! ### Multi-archive random-entry distribution (server.py, `get_random_entries`)

The nondeterministic `zim_manager.get_random_entry(zim_file)` call is
modelled by an oracle indexed by the archive name and the attempt number
within that archive's inner loop. -/

/-- Outcome of one random draw as observed by the server loop: an entry, a
falsy `None` (the manager already caught an error), or an exception reaching
the server's per-archive `except` clause (which also covers a raised access
to `entry.path` / `entry.title` / `entry.is_redirect`). -/
inductive DrawResult where
  | success (e : Entry) : DrawResult
  | noEntry : DrawResult
  | failure : DrawResult

/-- The `RandomEntry` response model (models.py): an entry tagged with its
originating archive filename. -/
structure RandomEntry where
  zim_file : String
  path : String
  title : String
  is_redirect : Bool
deriving DecidableEq

/-- The inner `for _ in range(entries_per_file)` loop of
`get_random_entries`: before each draw, stop once the running total reaches
`count`; a failed draw aborts the archive's remaining attempts (the `except
... continue`). -/
def draw_loop (draw : String → Nat → DrawResult) (zim_file : String)
    (count : Nat) (acc : List RandomEntry) (j : Nat) :
    Nat → List RandomEntry
  | 0 => acc
  | fuel + 1 =>
      if count ≤ acc.length then acc
      else
        match draw zim_file j with
        | .success e =>
            draw_loop draw zim_file count
              (acc ++ [⟨zim_file, e.path, e.title, e.is_redirect⟩]) (j + 1)
              fuel
        | .noEntry => draw_loop draw zim_file count acc (j + 1) fuel
        | .failure => acc

/-- `get_random_entries` (server.py lines 551-588) for an explicit archive
list: validate `count`, reject an empty list, then iterate the archives in
input order with per-archive quota `max(1, count // len(zim_files))`. -/
def get_random_entries (draw : String → Nat → DrawResult)
    (zim_files : List String) (count : Nat) : Except String (List RandomEntry) :=
  if count = 0 ∨ 50 < count then .error "Invalid count"
  else if zim_files = [] then
    .error "No ZIM files available for random entry selection"
  else
    .ok (zim_files.foldl
      (fun acc zim_file =>
        draw_loop draw zim_file count acc 0 (max 1 (count / zim_files.length)))
      [])

/-! ### Path validation (utils.py, `validate_zim_file_path`)

Paths are modelled lexically as rooted component lists (the filesystem is
assumed symlink-free, so `Path.resolve()` is lexical normalization). -/

/-- A Python `Path` argument: absolute flag plus components. -/
structure PyPath where
  absolute : Bool
  comps : List String
deriving DecidableEq

/-- One step of lexical normalization: `".."` drops the last resolved
component (`Path.resolve` stays at the root when already there), `"."` is
dropped, anything else is appended. -/
def resolveStep (acc : List String) (c : String) : List String :=
  if c = "." then acc
  else if c = ".." then acc.dropLast
  else acc ++ [c]

/-- `Path.resolve()` on a rooted component list, lexically. -/
def resolveComps (cs : List String) : List String :=
  cs.foldl resolveStep []

/-- `resolved_path.relative_to(base_resolved)` succeeds iff the base
components lead the resolved ones. -/
def withinBase : List String → List String → Bool
  | [], _ => true
  | _ :: _, [] => false
  | b :: bs, r :: rs => b == r && withinBase bs rs

/-- `validate_zim_file_path(file_path, base_directory)`: a relative input is
joined onto the (absolute) base directory, both sides are resolved, and the
`ValueError` raised when `resolved_path.relative_to(base_resolved)` fails is
modelled as `Except.error`; otherwise the resolved path is returned. -/
def validate_zim_file_path (file_path : PyPath)
    (base_directory : List String) : Except String (List String) :=
  let joined :=
    if file_path.absolute then file_path.comps
    else base_directory ++ file_path.comps
  let resolved_path := resolveComps joined
  let base_resolved := resolveComps base_directory
  if withinBase base_resolved resolved_path then .ok resolved_path
  else .error "File path is outside allowed directory"

/-! ### Archive catalogue (zim_manager.py) -/

/-- The observable state of one opened libzim archive, as
`_get_zim_file_info` reads it (`get_metadata` returning `none` models the
`KeyError` / `ValueError` defaulted to `""` in the metadata loop). -/
structure ArchiveData where
  filesize : Nat
  article_count : Nat
  media_count : Nat
  metadata_keys : List String
  get_metadata : String → Option String
  has_fulltext_index : Bool
  has_title_index : Bool
  uuid : String
  has_checksum : Bool
  check : Bool

/-- The `ZimManagerFileInfo` dataclass; `filepath` is a rooted component
list. -/
structure ZimManagerFileInfo where
  filename : String
  filepath : List String
  size : Nat
  size_formatted : String
  article_count : Nat
  media_count : Nat
  title : String
  description : String
  language : String
  creator : String
  date : String
  has_fulltext_index : Bool
  has_title_index : Bool
  uuid : String
deriving DecidableEq

/-- `filepath.name`: the last path component. -/
def pathName (filepath : List String) : String := filepath.getLastD ""

/-- `ZimManager._get_zim_file_info`.  Filesystem and library collaborators
are explicit: `statSize` models `filepath.stat().st_size` (`none` an
OSError), `openArchive` models `libzim.reader.Archive(str(filepath))`
(`none` a raised open error), `fmtSize` models `format_file_size`
(floating-point formatting abstracted).  The float guard
`size_mb > max_zim_file_size_mb` is exact over the rationals:
`size / 2^20 > limit  ↔  limit * 2^20 < size`.  The checksum verification
only logs, so it has no observable effect here.  Raised errors propagate to
the caller (`Except.error`); on success the info and the updated
`file_info_cache` are returned. -/
def get_zim_file_info
    (statSize : List String → Option Nat)
    (openArchive : List String → Option ArchiveData)
    (fmtSize : Nat → String)
    (config : ZimServerConfig)
    (cache : List (String × ZimManagerFileInfo))
    (filepath : List String) :
    Except String (ZimManagerFileInfo × List (String × ZimManagerFileInfo)) :=
  let filename := pathName filepath
  match lookupKey cache filename with
  | some info => .ok (info, cache)
  | none =>
      match statSize filepath with
      | none => .error "stat failed"
      | some preliminary_size =>
          if config.max_zim_file_size_mb * (1024 * 1024) < preliminary_size
          then
            let file_info : ZimManagerFileInfo :=
              { filename := filename, filepath := filepath,
                size := preliminary_size,
                size_formatted := fmtSize preliminary_size,
                article_count := 0, media_count := 0, title := filename,
                description :=
                  "Large ZIM file (skipped metadata loading due to size)",
                language := "", creator := "", date := "",
                has_fulltext_index := false, has_title_index := false,
                uuid := "" }
            .ok (file_info, cache ++ [(filename, file_info)])
          else
            match openArchive filepath with
            | none => .error "archive open failed"
            | some archive =>
                let metadata := archive.metadata_keys.map
                  (fun key => (key, (archive.get_metadata key).getD ""))
                let file_info : ZimManagerFileInfo :=
                  { filename := filename, filepath := filepath,
                    size := archive.filesize,
                    size_formatted := fmtSize archive.filesize,
                    article_count := archive.article_count,
                    media_count := archive.media_count,
                    title := (lookupKey metadata "Title").getD filename,
                    description :=
                      (lookupKey metadata "Description").getD "",
                    language := (lookupKey metadata "Language").getD "",
                    creator := (lookupKey metadata "Creator").getD "",
                    date := (lookupKey metadata "Date").getD "",
                    has_fulltext_index := archive.has_fulltext_index,
                    has_title_index := archive.has_title_index,
                    uuid := archive.uuid }
                .ok (file_info, cache ++ [(filename, file_info)])

/-- One iteration of the `discover_zim_files` loop: append the file's info,
or skip the file when its info computation raises. -/
def discover_step
    (statSize : List String → Option Nat)
    (openArchive : List String → Option ArchiveData)
    (fmtSize : Nat → String)
    (config : ZimServerConfig)
    (acc : List ZimManagerFileInfo × List (String × ZimManagerFileInfo))
    (fp : List String) :
    List ZimManagerFileInfo × List (String × ZimManagerFileInfo) :=
  match get_zim_file_info statSize openArchive fmtSize config acc.2 fp with
  | .ok (info, cache') => (acc.1 ++ [info], cache')
  | .error _ => acc

/-- The body of `ZimManager.discover_zim_files` after the memo check: fold
over the recursive `rglob("*.zim")` result (the walked paths, an oracle
input); the second component is the resulting `file_info_cache`. -/
def discover_zim_files
    (statSize : List String → Option Nat)
    (openArchive : List String → Option ArchiveData)
    (fmtSize : Nat → String)
    (config : ZimServerConfig)
    (cache₀ : List (String × ZimManagerFileInfo))
    (walked : List (List String)) :
    List ZimManagerFileInfo × List (String × ZimManagerFileInfo) :=
  walked.foldl (discover_step statSize openArchive fmtSize config) ([], cache₀)


section AssocLemmas

variable {α β : Type} [DecidableEq α]

theorem removeElem_eq_erase (l : List α) (a : α) : removeElem l a = l.erase a := by
  induction l with
  | nil => rfl
  | cons x rest ih =>
      by_cases h : x = a
      · simp [removeElem, h, List.erase_cons]
      · simp [removeElem, h, List.erase_cons, ih]

theorem lookupKey_isSome_iff (c : List (α × β)) (k : α) :
    (lookupKey c k).isSome ↔ k ∈ c.map Prod.fst := by
  induction c with
  | nil => simp [lookupKey]
  | cons p rest ih =>
      obtain ⟨k', v⟩ := p
      by_cases h : k' = k
      · simp [lookupKey, h]
      · simp [lookupKey, h, ih, Ne.symm h]

theorem lookupKey_eq_none_iff (c : List (α × β)) (k : α) :
    lookupKey c k = none ↔ k ∉ c.map Prod.fst := by
  rw [← lookupKey_isSome_iff]
  cases lookupKey c k <;> simp

theorem map_fst_updateVal (c : List (α × β)) (k : α) (v : β) :
    (updateVal c k v).map Prod.fst = c.map Prod.fst := by
  induction c with
  | nil => rfl
  | cons p rest ih =>
      obtain ⟨k', v'⟩ := p
      by_cases h : k' = k
      · simp [updateVal, h]
      · simp [updateVal, h, ih]

theorem length_updateVal (c : List (α × β)) (k : α) (v : β) :
    (updateVal c k v).length = c.length := by
  have := congrArg List.length (map_fst_updateVal c k v)
  simpa using this

theorem map_fst_removeKey (c : List (α × β)) (k : α) :
    (removeKey c k).map Prod.fst = (c.map Prod.fst).erase k := by
  induction c with
  | nil => rfl
  | cons p rest ih =>
      obtain ⟨k', v'⟩ := p
      by_cases h : k' = k
      · simp [removeKey, h, List.erase_cons]
      · simp [removeKey, h, List.erase_cons, ih]

theorem lookupKey_append (l₁ l₂ : List (α × β)) (k : α) :
    lookupKey (l₁ ++ l₂) k =
      match lookupKey l₁ k with
      | some v => some v
      | none => lookupKey l₂ k := by
  induction l₁ with
  | nil => simp [lookupKey]
  | cons p rest ih =>
      obtain ⟨k', v⟩ := p
      by_cases h : k' = k
      · simp [lookupKey, h]
      · simp [lookupKey, h, ih]

theorem lookupKey_updateVal_self (c : List (α × β)) (k : α) (v : β)
    (h : (lookupKey c k).isSome) : lookupKey (updateVal c k v) k = some v := by
  induction c with
  | nil => simp [lookupKey] at h
  | cons p rest ih =>
      obtain ⟨k', v'⟩ := p
      by_cases hk : k' = k
      · simp [updateVal, hk, lookupKey]
      · simp [lookupKey, hk] at h
        simp [updateVal, hk, lookupKey, ih h]

theorem lookupKey_removeKey_ne (c : List (α × β)) (a k : α) (h : k ≠ a) :
    lookupKey (removeKey c a) k = lookupKey c k := by
  induction c with
  | nil => rfl
  | cons p rest ih =>
      obtain ⟨k', v'⟩ := p
      by_cases ha : k' = a
      · subst ha
        have : k' ≠ k := fun hkk => h hkk.symm
        simp [removeKey, lookupKey, this]
      · by_cases hk : k' = k
        · simp [removeKey, ha, lookupKey, hk, h]
        · simp [removeKey, ha, lookupKey, hk, ih]

end AssocLemmas

theorem lookupKey_append_some {α β : Type} [DecidableEq α]
    {l₁ : List (α × β)} {k : α} {v : β} (h : lookupKey l₁ k = some v)
    (l₂ : List (α × β)) : lookupKey (l₁ ++ l₂) k = some v := by
  rw [lookupKey_append, h]

theorem lookupKey_append_none {α β : Type} [DecidableEq α]
    {l₁ : List (α × β)} {k : α} (h : lookupKey l₁ k = none)
    (l₂ : List (α × β)) : lookupKey (l₁ ++ l₂) k = lookupKey l₂ k := by
  rw [lookupKey_append, h]


namespace LRUCache

variable {α β : Type} [DecidableEq α]

theorem inv_empty (K : Nat) : Inv K (empty K : LRUCache α β) := by
  refine ⟨rfl, ?_, ?_, ?_⟩ <;> simp [empty]

theorem keys_nodup {K : Nat} {s : LRUCache α β} (h : Inv K s) :
    (s.cache.map Prod.fst).Nodup :=
  h.2.1.nodup h.2.2.1

/-- A `put` that hits updates the value and refreshes recency without
changing occupancy, and preserves the invariant. -/
theorem put_hit {K : Nat} (s : LRUCache α β) (k : α) (v : β)
    (hInv : Inv K s) (h : (lookupKey s.cache k).isSome) :
    ∃ s', s.put k v = some s' ∧ Inv K s' ∧ s'.size = s.size ∧
      lookupKey s'.cache k = some v ∧
      s'.access_order = removeElem s.access_order k ++ [k] := by
  obtain ⟨hmax, hperm, hnd, hlen⟩ := hInv
  have hkkeys : k ∈ s.cache.map Prod.fst := (lookupKey_isSome_iff _ _).mp h
  have hkord : k ∈ s.access_order := hperm.mem_iff.mpr hkkeys
  have hperm' : (s.access_order.erase k ++ [k]).Perm s.access_order :=
    (List.perm_append_singleton _ _).trans (List.perm_cons_erase hkord).symm
  refine ⟨⟨s.max_size, updateVal s.cache k v, removeElem s.access_order k ++ [k]⟩,
          by simp [put, h], ⟨hmax, ?_, ?_, ?_⟩, ?_, ?_, rfl⟩
  · rw [map_fst_updateVal, removeElem_eq_erase]
    exact hperm'.trans hperm
  · rw [removeElem_eq_erase]
    exact hperm'.symm.nodup hnd
  · simpa [length_updateVal] using hlen
  · simp [size, length_updateVal]
  · exact lookupKey_updateVal_self _ _ _ h

/-- A `put` that misses at capacity evicts exactly one entry — the head of
`access_order` (the least-recently-accessed key) — before inserting, and
preserves the invariant. -/
theorem put_miss_full {K : Nat} (s : LRUCache α β) (k : α) (v : β)
    (hK : 1 ≤ K) (hInv : Inv K s) (hmiss : lookupKey s.cache k = none)
    (hfull : s.size = K) :
    ∃ oldest rest s', s.access_order = oldest :: rest ∧
      s.put k v = some s' ∧ Inv K s' ∧ s'.size = K ∧
      lookupKey s'.cache oldest = none ∧ lookupKey s'.cache k = some v ∧
      ∀ k', k' ≠ oldest → k' ≠ k → lookupKey s'.cache k' = lookupKey s.cache k' := by
  obtain ⟨hmax, hperm, hnd, hlen⟩ := hInv
  have hknotin : k ∉ s.cache.map Prod.fst := (lookupKey_eq_none_iff _ _).mp hmiss
  have hordlen : s.access_order.length = K := by
    rw [hperm.length_eq]; simpa [size] using hfull
  obtain ⟨oldest, rest, hord⟩ : ∃ o r, s.access_order = o :: r := by
    cases hcases : s.access_order with
    | nil => rw [hcases] at hordlen; simp at hordlen; omega
    | cons o r => exact ⟨o, r, rfl⟩
  have holdmem : oldest ∈ s.cache.map Prod.fst := by
    rw [← hperm.mem_iff, hord]; exact List.mem_cons_self _ _
  have holdsome : (lookupKey s.cache oldest).isSome :=
    (lookupKey_isSome_iff _ _).mpr holdmem
  have hne : k ≠ oldest := fun hkeq => hknotin (hkeq ▸ holdmem)
  have hput : s.put k v =
      some { s with cache := removeKey s.cache oldest ++ [(k, v)],
                    access_order := rest ++ [k] } := by
    have hm : (lookupKey s.cache k).isSome = false := by simp [hmiss]
    have hcap : s.max_size ≤ s.cache.length := by
      simp only [hmax]; simpa [size] using hfull.ge
    simp [put, hm, hcap, hord, holdsome]
  have hkeysnd : (s.cache.map Prod.fst).Nodup := hperm.nodup hnd
  have hrest : rest.Perm ((s.cache.map Prod.fst).erase oldest) := by
    have := hperm.erase oldest
    rw [hord] at this
    simpa using this
  have hkeys' : ((removeKey s.cache oldest ++ [(k, v)]).map Prod.fst) =
      (s.cache.map Prod.fst).erase oldest ++ [k] := by
    simp [map_fst_removeKey]
  have hlenrem : (removeKey s.cache oldest).length = K - 1 := by
    have h1 : ((removeKey s.cache oldest).map Prod.fst).length =
        ((s.cache.map Prod.fst).erase oldest).length := by rw [map_fst_removeKey]
    have h2 : ((s.cache.map Prod.fst).erase oldest).length =
        (s.cache.map Prod.fst).length - 1 := List.length_erase_of_mem holdmem
    have h3 : (s.cache.map Prod.fst).length = K := by simpa [size] using hfull
    simpa [h2, h3] using h1
  have hknotrest : k ∉ rest := by
    intro hkr
    exact hknotin (List.erase_subset _ _ (hrest.mem_iff.mp hkr))
  refine ⟨oldest, rest, _, hord, hput, ⟨hmax, ?_, ?_, ?_⟩, ?_, ?_, ?_, ?_⟩
  · rw [hkeys']
    exact hrest.append_right [k]
  · have hrestnd : rest.Nodup := by
      have := hord ▸ hnd
      exact (List.nodup_cons.mp this).2
    simp [List.nodup_append, hrestnd, hknotrest]
  · have hlen' : (removeKey s.cache oldest ++ [(k, v)]).length = K - 1 + 1 := by
      simp [hlenrem]
    show (removeKey s.cache oldest ++ [(k, v)]).length ≤ K
    omega
  · have hlen' : (removeKey s.cache oldest ++ [(k, v)]).length = K - 1 + 1 := by
      simp [hlenrem]
    show (removeKey s.cache oldest ++ [(k, v)]).length = K
    omega
  · have holdnotin : oldest ∉ (removeKey s.cache oldest).map Prod.fst := by
      rw [map_fst_removeKey]
      exact hkeysnd.not_mem_erase
    have h1 : lookupKey (removeKey s.cache oldest) oldest = none :=
      (lookupKey_eq_none_iff _ _).mpr holdnotin
    rw [lookupKey_append, h1]
    simp [lookupKey, hne]
  · have h1 : lookupKey (removeKey s.cache oldest) k = none := by
      rw [lookupKey_removeKey_ne _ _ _ hne, hmiss]
    rw [lookupKey_append, h1]
    simp [lookupKey]
  · intro k' hko hkk
    rw [lookupKey_append, lookupKey_removeKey_ne _ _ _ hko]
    cases hc : lookupKey s.cache k' with
    | some w => simp
    | none => simp [lookupKey, Ne.symm hkk]

/-- A `put` that misses below capacity inserts without evicting and
preserves the invariant. -/
theorem put_miss_notfull {K : Nat} (s : LRUCache α β) (k : α) (v : β)
    (hInv : Inv K s) (hmiss : lookupKey s.cache k = none)
    (hnotfull : s.size < K) :
    ∃ s', s.put k v = some s' ∧ Inv K s' ∧ s'.size = s.size + 1 ∧
      lookupKey s'.cache k = some v := by
  obtain ⟨hmax, hperm, hnd, hlen⟩ := hInv
  have hknotin : k ∉ s.cache.map Prod.fst := (lookupKey_eq_none_iff _ _).mp hmiss
  have hknord : k ∉ s.access_order := fun hc => hknotin (hperm.mem_iff.mp hc)
  have hput : s.put k v =
      some { s with cache := s.cache ++ [(k, v)],
                    access_order := s.access_order ++ [k] } := by
    have hm : (lookupKey s.cache k).isSome = false := by simp [hmiss]
    have hcap : ¬ s.max_size ≤ s.cache.length := by
      simp only [hmax]
      have : s.cache.length < K := by simpa [size] using hnotfull
      omega
    simp [put, hm, hcap]
  refine ⟨_, hput, ⟨hmax, ?_, ?_, ?_⟩, ?_, ?_⟩
  · simpa using hperm.append_right [k]
  · simp [List.nodup_append, hnd, hknord]
  · simp only [List.length_append, List.length_singleton]
    have : s.cache.length < K := by simpa [size] using hnotfull
    omega
  · simp [size]
  · rw [lookupKey_append, hmiss]
    simp [lookupKey]

/-- Every `put` from an invariant-satisfying state succeeds (no Python
exception is reachable) and preserves the invariant. -/
theorem put_preserves {K : Nat} (s : LRUCache α β) (k : α) (v : β)
    (hK : 1 ≤ K) (hInv : Inv K s) :
    ∃ s', s.put k v = some s' ∧ Inv K s' := by
  cases hm : lookupKey s.cache k with
  | some w =>
      obtain ⟨s', h1, h2, -⟩ := put_hit s k v hInv (by simp [hm])
      exact ⟨s', h1, h2⟩
  | none =>
      rcases lt_or_eq_of_le hInv.2.2.2 with hlt | heq
      · obtain ⟨s', h1, h2, -⟩ := put_miss_notfull s k v hInv hm (by simpa [size] using hlt)
        exact ⟨s', h1, h2⟩
      · obtain ⟨o, r, s', -, h1, h2, -⟩ :=
          put_miss_full s k v hK hInv hm (by simpa [size] using heq)
        exact ⟨s', h1, h2⟩

/-- Any sequence of `put` operations from any invariant-satisfying start
state runs without exception and ends in an invariant-satisfying state. -/
theorem foldl_put_inv {K : Nat} (hK : 1 ≤ K) :
    ∀ (ops : List (α × β)) (s : LRUCache α β), Inv K s →
      ∃ s', ops.foldlM (fun t kv => t.put kv.1 kv.2) s = some s' ∧ Inv K s' := by
  intro ops
  induction ops with
  | nil => exact fun s h => ⟨s, rfl, h⟩
  | cons kv rest ih =>
      intro s h
      obtain ⟨s1, hput, hinv1⟩ := put_preserves s kv.1 kv.2 hK h
      obtain ⟨s', hfold, hinv'⟩ := ih s1 hinv1
      refine ⟨s', ?_, hinv'⟩
      rw [List.foldlM_cons, hput]
      simpa using hfold

end LRUCache

/-- C1: for every capacity `K ≥ 1`, every sequence of `put` operations on the
bounded cache runs without exception and ends with `size ≤ K` (every prefix of
the sequence is itself such a sequence, so the bound holds after each
operation); from any reachable state, a `put` on a present key updates the
value and refreshes recency without changing occupancy, and a `put` on an
absent key at capacity evicts exactly one entry — the head of `access_order`,
i.e. the least-recently-accessed key — leaving every other key's binding
untouched. -/
theorem C1_lru_cache_bounded_eviction (α β : Type) [DecidableEq α]
    (K : Nat) (hK : 1 ≤ K) (ops : List (α × β)) :
    ∃ s : LRUCache α β, LRUCache.runPuts K ops = some s ∧ LRUCache.Inv K s ∧
      s.size ≤ K ∧
      ∀ k v,
        ((lookupKey s.cache k).isSome →
          ∃ s', s.put k v = some s' ∧ s'.size = s.size ∧
            lookupKey s'.cache k = some v ∧
            s'.access_order = removeElem s.access_order k ++ [k]) ∧
        (lookupKey s.cache k = none → s.size = K →
          ∃ oldest rest s', s.access_order = oldest :: rest ∧
            s.put k v = some s' ∧ s'.size = K ∧
            lookupKey s'.cache oldest = none ∧ lookupKey s'.cache k = some v ∧
            ∀ k', k' ≠ oldest → k' ≠ k →
              lookupKey s'.cache k' = lookupKey s.cache k') := by
  obtain ⟨s, hrun, hinv⟩ :=
    LRUCache.foldl_put_inv hK ops (LRUCache.empty K) (LRUCache.inv_empty K)
  refine ⟨s, hrun, hinv, hinv.2.2.2, ?_⟩
  intro k v
  constructor
  · intro h
    obtain ⟨s', h1, h2, h3, h4, h5⟩ := LRUCache.put_hit s k v hinv h
    exact ⟨s', h1, h3, h4, h5⟩
  · intro hm hf
    obtain ⟨o, r, s', h1, h2, h3, h4, h5, h6, h7⟩ :=
      LRUCache.put_miss_full s k v hK hinv hm hf
    exact ⟨o, r, s', h1, h2, h4, h5, h6, h7⟩

/-- Witness for C1: capacity 2 with four put operations (the third evicts,
the fourth hits). -/
theorem C1_lru_cache_bounded_eviction_witness :
    ∃ s : LRUCache Nat Nat,
      LRUCache.runPuts 2 [(0, 10), (1, 11), (2, 12), (1, 13)] = some s ∧
        s.size ≤ 2 := by
  obtain ⟨s, hrun, -, hsize, -⟩ :=
    C1_lru_cache_bounded_eviction Nat Nat 2 (by decide)
      [(0, 10), (1, 11), (2, 12), (1, 13)]
  exact ⟨s, hrun, hsize⟩

theorem pyStartsWith_text_of_html {s : String}
    (h : pyStartsWith s "text/html" = true) : pyStartsWith s "text/" = true := by
  simp only [pyStartsWith, List.isPrefixOf_iff_prefix] at h ⊢
  exact List.IsPrefix.trans (by decide) h

theorem mimetype_ne_empty_of_text {s : String}
    (h : pyStartsWith s "text/" = true) : s ≠ "" := by
  intro h0
  rw [h0] at h
  exact absurd h (by decide)

/-- C2: a redirect entry short-circuits the pipeline: content kind
`redirect`, content length zero and processing time zero, for both values of
`raw_output`; the result does not depend on the collaborators, the
configuration, the clock, the entry's bytes or its MIME type (no byte fetch
or MIME dispatch happens). -/
theorem C2_redirect_short_circuit (C : Collaborators)
    (config : ZimServerConfig) (elapsed_ms : ℚ) (entry : Entry)
    (h : entry.is_redirect = true) (raw_output : Bool) :
    (extract_from_entry C config elapsed_ms entry raw_output).content_type =
        "redirect" ∧
      (extract_from_entry C config elapsed_ms entry raw_output).content_length
          = 0 ∧
      (extract_from_entry C config elapsed_ms entry
            raw_output).processing_time_ms = 0 ∧
      ∀ (C' : Collaborators) (config' : ZimServerConfig) (elapsed' : ℚ)
        (bytes' : List Nat) (mt' : String),
          extract_from_entry C' config' elapsed'
              { entry with content := bytes', mimetype := mt' } raw_output =
            extract_from_entry C config elapsed_ms entry raw_output := by
  refine ⟨?_, ?_, ?_, ?_⟩ <;> simp [extract_from_entry, h]

/-- Witness for C2 on a concrete redirect entry. -/
theorem C2_redirect_short_circuit_witness :
    (extract_from_entry
        ⟨fun _ => "", fun _ => "", fun _ => .ok "", fun _ => none,
          fun _ => "0.0", fun _ => "0.0", fun n => toString n⟩
        ⟨["zim"], 1000, 5, 2048⟩ 7
        ⟨"A/redir", "Redirect", true, [72, 105], "text/html"⟩
        true).content_type = "redirect" ∧
      (extract_from_entry
          ⟨fun _ => "", fun _ => "", fun _ => .ok "", fun _ => none,
            fun _ => "0.0", fun _ => "0.0", fun n => toString n⟩
          ⟨["zim"], 1000, 5, 2048⟩ 7
          ⟨"A/redir", "Redirect", true, [72, 105], "text/html"⟩
          false).processing_time_ms = 0 := by
  refine ⟨?_, ?_⟩
  · exact (C2_redirect_short_circuit _ _ _ _ rfl true).1
  · exact (C2_redirect_short_circuit _ _ _ _ rfl false).2.2.1

/-- C3: raw extraction of a non-redirect entry whose declared MIME type
starts with `text/` has content kind `raw` and zero recorded processing
time, and — given that UTF-8 decoding with replacement never yields more
characters than input bytes — returns the decoded original bytes verbatim,
with no truncation marker, whenever the original byte length does not exceed
the configured maximum content length. -/
theorem C3_raw_text_roundtrip (C : Collaborators) (config : ZimServerConfig)
    (elapsed_ms : ℚ) (entry : Entry)
    (hnr : entry.is_redirect = false)
    (hm : pyStartsWith entry.mimetype "text/" = true)
    (hdec : ∀ bs : List Nat, (C.utf8decode bs).length ≤ bs.length) :
    (extract_from_entry C config elapsed_ms entry true).content_type = "raw" ∧
      (extract_from_entry C config elapsed_ms entry true).processing_time_ms
          = 0 ∧
      (entry.content.length ≤ config.max_content_length →
        (extract_from_entry C config elapsed_ms entry true).content =
          C.utf8decode entry.content) := by
  have hne : entry.mimetype ≠ "" := mimetype_ne_empty_of_text hm
  refine ⟨?_, ?_, ?_⟩
  · simp [extract_from_entry, hnr, hne]
  · simp [extract_from_entry, hnr, hne, handle_raw_output, hm]
  · intro hlen
    have hnotrunc :
        ¬ config.max_content_length < (C.utf8decode entry.content).length := by
      have := hdec entry.content
      omega
    simp [extract_from_entry, hnr, hne, handle_raw_output, hm, hnotrunc]

/-- Witness for C3 on a concrete plain-text entry, with ASCII decoding as
the concrete UTF-8 collaborator. -/
theorem C3_raw_text_roundtrip_witness :
    (extract_from_entry
        ⟨fun bs => String.mk (bs.map fun b => Char.ofNat b), fun _ => "",
          fun _ => .ok "", fun _ => none, fun _ => "0.0", fun _ => "0.0",
          fun n => toString n⟩
        ⟨["zim"], 1000, 5, 2048⟩ 7
        ⟨"A/t.txt", "T", false, [104, 105], "text/plain"⟩
        true).content_type = "raw" ∧
      (extract_from_entry
          ⟨fun bs => String.mk (bs.map fun b => Char.ofNat b), fun _ => "",
            fun _ => .ok "", fun _ => none, fun _ => "0.0", fun _ => "0.0",
            fun n => toString n⟩
          ⟨["zim"], 1000, 5, 2048⟩ 7
          ⟨"A/t.txt", "T", false, [104, 105], "text/plain"⟩
          true).content = "hi" := by
  have h := C3_raw_text_roundtrip
    ⟨fun bs => String.mk (bs.map fun b => Char.ofNat b), fun _ => "",
      fun _ => .ok "", fun _ => none, fun _ => "0.0", fun _ => "0.0",
      fun n => toString n⟩
    ⟨["zim"], 1000, 5, 2048⟩ 7
    ⟨"A/t.txt", "T", false, [104, 105], "text/plain"⟩
    rfl (by decide) (fun bs => by simp [String.length])
  refine ⟨h.1, ?_⟩
  rw [h.2.2 (by decide)]
  decide

/-- C4: for every non-redirect entry, truncation applies to the converted
output: if the converted text exceeds `max_content_length` characters, the
returned content is its `max_content_length`-character prefix with the
visible truncation marker appended, and otherwise it is returned unchanged;
in both cases the reported `content_length` is the byte length of the
original untruncated source bytes. -/
theorem C4_truncation_preserves_reported_length (C : Collaborators)
    (config : ZimServerConfig) (elapsed_ms : ℚ) (entry : Entry)
    (raw_output : Bool) (hnr : entry.is_redirect = false) :
    let mime_type :=
      if entry.mimetype = "" then "application/octet-stream"
      else entry.mimetype
    let pr :=
      if raw_output then handle_raw_output C entry.content mime_type
      else
        process_by_mimetype C elapsed_ms entry.content mime_type entry.path
          entry.title
    (extract_from_entry C config elapsed_ms entry raw_output).content_length =
        entry.content.length ∧
      (config.max_content_length < pr.1.length →
        (extract_from_entry C config elapsed_ms entry raw_output).content =
          pr.1.take config.max_content_length ++ truncation_marker) ∧
      (pr.1.length ≤ config.max_content_length →
        (extract_from_entry C config elapsed_ms entry raw_output).content =
          pr.1) := by
  intro mime_type pr
  refine ⟨?_, ?_, ?_⟩
  · simp [extract_from_entry, hnr]
  · intro htr
    simp only [extract_from_entry, hnr, Bool.false_eq_true, if_false]
    simp [mime_type, pr] at htr ⊢
    simp [htr]
  · intro htr
    have hnotr : ¬ config.max_content_length < pr.1.length := by omega
    simp only [extract_from_entry, hnr, Bool.false_eq_true, if_false]
    simp [mime_type, pr] at hnotr ⊢
    simp [hnotr]

/-- Witness for C4 on a concrete JSON entry (converted text is the decoded
body) with a maximum content length of 1: the converted two-character text is
truncated to one character plus the marker, while `content_length` still
reports both original bytes. -/
theorem C4_truncation_preserves_reported_length_witness :
    (extract_from_entry
        ⟨fun bs => String.mk (bs.map fun b => Char.ofNat b), fun _ => "",
          fun _ => .ok "", fun _ => none, fun _ => "0.0", fun _ => "0.0",
          fun n => toString n⟩
        ⟨["zim"], 1, 5, 2048⟩ 7
        ⟨"A/d.json", "D", false, [104, 105], "application/json"⟩
        false).content_length = 2 ∧
      (extract_from_entry
          ⟨fun bs => String.mk (bs.map fun b => Char.ofNat b), fun _ => "",
            fun _ => .ok "", fun _ => none, fun _ => "0.0", fun _ => "0.0",
            fun n => toString n⟩
          ⟨["zim"], 1, 5, 2048⟩ 7
          ⟨"A/d.json", "D", false, [104, 105], "application/json"⟩
          false).content = "h" ++ truncation_marker := by
  have h := C4_truncation_preserves_reported_length
    ⟨fun bs => String.mk (bs.map fun b => Char.ofNat b), fun _ => "",
      fun _ => .ok "", fun _ => none, fun _ => "0.0", fun _ => "0.0",
      fun n => toString n⟩
    ⟨["zim"], 1, 5, 2048⟩ 7
    ⟨"A/d.json", "D", false, [104, 105], "application/json"⟩
    false rfl
  refine ⟨h.1, ?_⟩
  rw [h.2.1 (by decide)]
  decide

/-- C5: when the MarkItDown collaborator raises on an HTML entry, the error
is caught inside `_convert_html_to_markdown`: the processed content is the
literal conversion-failure notice followed by the raw UTF-8-decoded body
(with the metadata footer after it), and `processing_time_ms` of the final
result is populated with the (non-negative) elapsed time. -/
theorem C5_html_conversion_failure_fallback (C : Collaborators)
    (config : ZimServerConfig) (elapsed_ms : ℚ) (entry : Entry) (err : String)
    (hnr : entry.is_redirect = false)
    (hm : pyStartsWith entry.mimetype "text/html" = true)
    (hconv : C.convertHtml entry.content = .error err)
    (helapsed : 0 ≤ elapsed_ms) :
    (process_by_mimetype C elapsed_ms entry.content entry.mimetype entry.path
          entry.title).1 =
        ("[MarkItDown conversion failed: " ++ err ++ "]\n\n" ++
            C.utf8decode entry.content) ++
          metadata_footer C entry.mimetype entry.content.length elapsed_ms ∧
      (extract_from_entry C config elapsed_ms entry false).processing_time_ms
          = elapsed_ms ∧
      0 ≤ (extract_from_entry C config elapsed_ms entry
            false).processing_time_ms := by
  have hne : entry.mimetype ≠ "" :=
    mimetype_ne_empty_of_text (pyStartsWith_text_of_html hm)
  refine ⟨?_, ?_, ?_⟩
  · simp [process_by_mimetype, hm, add_metadata_footer,
      convert_html_to_markdown, hconv]
  · simp [extract_from_entry, hnr, hne, process_by_mimetype, hm]
  · simp [extract_from_entry, hnr, hne, process_by_mimetype, hm, helapsed]

/-- Witness for C5 on a concrete HTML entry whose conversion collaborator
always raises. -/
theorem C5_html_conversion_failure_fallback_witness :
    (process_by_mimetype
        ⟨fun bs => String.mk (bs.map fun b => Char.ofNat b), fun _ => "",
          fun _ => .error "boom", fun _ => none, fun _ => "0.0",
          fun _ => "0.0", fun n => toString n⟩
        7 [104, 105] "text/html" "A/h.html" "H").1 =
      ("[MarkItDown conversion failed: boom]\n\nhi" ++
        metadata_footer
          ⟨fun bs => String.mk (bs.map fun b => Char.ofNat b), fun _ => "",
            fun _ => .error "boom", fun _ => none, fun _ => "0.0",
            fun _ => "0.0", fun n => toString n⟩
          "text/html" 2 7) ∧
    (extract_from_entry
        ⟨fun bs => String.mk (bs.map fun b => Char.ofNat b), fun _ => "",
          fun _ => .error "boom", fun _ => none, fun _ => "0.0",
          fun _ => "0.0", fun n => toString n⟩
        ⟨["zim"], 1000, 5, 2048⟩ 7
        ⟨"A/h.html", "H", false, [104, 105], "text/html"⟩
        false).processing_time_ms = 7 := by
  have h := C5_html_conversion_failure_fallback
    ⟨fun bs => String.mk (bs.map fun b => Char.ofNat b), fun _ => "",
      fun _ => .error "boom", fun _ => none, fun _ => "0.0", fun _ => "0.0",
      fun n => toString n⟩
    ⟨["zim"], 1000, 5, 2048⟩ 7
    ⟨"A/h.html", "H", false, [104, 105], "text/html"⟩
    "boom" rfl (by decide) rfl (by norm_num)
  refine ⟨?_, h.2.1⟩
  have h1 := h.1
  simpa [String.mk] using h1

/-- C10: for HTML processing the metadata footer is appended to whatever
`_convert_html_to_markdown` returns — the converted text on success, the
fallback notice plus raw body on conversion failure — so the footer is
present unconditionally. -/
theorem C10_metadata_footer_unconditional (C : Collaborators)
    (elapsed_ms : ℚ) (content_bytes : List Nat) (mime_type path title : String)
    (hm : pyStartsWith mime_type "text/html" = true) :
    (process_by_mimetype C elapsed_ms content_bytes mime_type path title).1 =
        convert_html_to_markdown C content_bytes ++
          metadata_footer C mime_type content_bytes.length elapsed_ms ∧
      (∀ t, C.convertHtml content_bytes = .ok t →
        (process_by_mimetype C elapsed_ms content_bytes mime_type path
              title).1 =
          t ++ metadata_footer C mime_type content_bytes.length elapsed_ms) ∧
      ∀ err, C.convertHtml content_bytes = .error err →
        (process_by_mimetype C elapsed_ms content_bytes mime_type path
              title).1 =
          ("[MarkItDown conversion failed: " ++ err ++ "]\n\n" ++
              C.utf8decode content_bytes) ++
            metadata_footer C mime_type content_bytes.length elapsed_ms := by
  refine ⟨?_, ?_, ?_⟩
  · simp [process_by_mimetype, hm, add_metadata_footer]
  · intro t ht
    simp [process_by_mimetype, hm, add_metadata_footer,
      convert_html_to_markdown, ht]
  · intro err herr
    simp [process_by_mimetype, hm, add_metadata_footer,
      convert_html_to_markdown, herr]

/-- Witness for C10: the footer is appended both for a succeeding and for a
failing converter on the same bytes. -/
theorem C10_metadata_footer_unconditional_witness :
    (process_by_mimetype
        ⟨fun bs => String.mk (bs.map fun b => Char.ofNat b), fun _ => "",
          fun _ => .ok "converted", fun _ => none, fun _ => "0.0",
          fun _ => "0.0", fun n => toString n⟩
        7 [104, 105] "text/html" "A/h.html" "H").1 =
      "converted" ++
        metadata_footer
          ⟨fun bs => String.mk (bs.map fun b => Char.ofNat b), fun _ => "",
            fun _ => .ok "converted", fun _ => none, fun _ => "0.0",
            fun _ => "0.0", fun n => toString n⟩
          "text/html" 2 7 := by
  have h := C10_metadata_footer_unconditional
    ⟨fun bs => String.mk (bs.map fun b => Char.ofNat b), fun _ => "",
      fun _ => .ok "converted", fun _ => none, fun _ => "0.0", fun _ => "0.0",
      fun n => toString n⟩
    7 [104, 105] "text/html" "A/h.html" "H" (by decide)
  exact h.2.1 "converted" rfl

theorem draw_loop_spec (draw : String → Nat → DrawResult) (zim_file : String)
    (count : Nat) :
    ∀ (fuel j : Nat) (acc : List RandomEntry), acc.length ≤ count →
      ∃ new, draw_loop draw zim_file count acc j fuel = acc ++ new ∧
        (∀ e ∈ new, e.zim_file = zim_file) ∧ new.length ≤ fuel ∧
        acc.length + new.length ≤ count ∧
        (draw zim_file j = .failure → new = []) := by
  intro fuel
  induction fuel with
  | zero =>
      intro j acc hacc
      exact ⟨[], by simp [draw_loop], by simp, by simp, by simpa using hacc,
        fun _ => rfl⟩
  | succ n ih =>
      intro j acc hacc
      by_cases hful : count ≤ acc.length
      · exact ⟨[], by simp [draw_loop, hful], by simp, by simp,
          by simpa using hacc, fun _ => rfl⟩
      · cases hdraw : draw zim_file j with
        | success e =>
            have hlen : (acc ++ [(⟨zim_file, e.path, e.title,
                e.is_redirect⟩ : RandomEntry)]).length ≤ count := by
              simp only [List.length_append, List.length_singleton]
              omega
            obtain ⟨new', h1, h2, h3, h4, -⟩ := ih (j + 1) _ hlen
            refine ⟨⟨zim_file, e.path, e.title, e.is_redirect⟩ :: new',
              ?_, ?_, ?_, ?_, ?_⟩
            · rw [draw_loop, if_neg hful, hdraw]
              show draw_loop draw zim_file count
                (acc ++ [⟨zim_file, e.path, e.title, e.is_redirect⟩]) (j + 1)
                n = _
              rw [h1]
              simp
            · intro x hx
              rcases List.mem_cons.mp hx with hx | hx
              · rw [hx]
              · exact h2 x hx
            · simp only [List.length_cons]
              omega
            · simp only [List.length_append, List.length_singleton] at h4
              simp only [List.length_cons]
              omega
            · intro hf
              exact DrawResult.noConfusion hf
        | noEntry =>
            obtain ⟨new', h1, h2, h3, h4, -⟩ := ih (j + 1) acc hacc
            refine ⟨new', ?_, h2, by omega, h4, ?_⟩
            · rw [draw_loop, if_neg hful, hdraw]
              show draw_loop draw zim_file count acc (j + 1) n = _
              exact h1
            · intro hf
              exact DrawResult.noConfusion hf
        | failure =>
            refine ⟨[], ?_, by simp, by simp, by simpa using hacc,
              fun _ => rfl⟩
            rw [draw_loop, if_neg hful, hdraw]
            simp

theorem foldl_draw_spec (draw : String → Nat → DrawResult) (count quota : Nat) :
    ∀ (files : List String) (acc : List RandomEntry), acc.length ≤ count →
      ∃ segs,
        files.foldl (fun a f => draw_loop draw f count a 0 quota) acc =
            acc ++ segs.flatten ∧
          List.Forall₂ (fun (seg : List RandomEntry) (f : String) =>
            (∀ e ∈ seg, e.zim_file = f) ∧ seg.length ≤ quota ∧
              (draw f 0 = .failure → seg = [])) segs files ∧
          (acc ++ segs.flatten).length ≤ count := by
  intro files
  induction files with
  | nil =>
      intro acc hacc
      exact ⟨[], by simp, List.Forall₂.nil, by simpa using hacc⟩
  | cons f fs ih =>
      intro acc hacc
      obtain ⟨new, h1, h2, h3, h4, h5⟩ :=
        draw_loop_spec draw f count quota 0 acc hacc
      obtain ⟨segs, g1, g2, g3⟩ := ih (acc ++ new) (by
        simp only [List.length_append]
        omega)
      refine ⟨new :: segs, ?_, List.Forall₂.cons ⟨h2, h3, h5⟩ g2, ?_⟩
      · simp only [List.foldl_cons, h1, g1, List.flatten_cons,
          List.append_assoc]
      · simpa [List.append_assoc] using g3

theorem forall₂_tag_mem (q : Nat) (draw : String → Nat → DrawResult) :
    ∀ (segs : List (List RandomEntry)) (files : List String),
      List.Forall₂ (fun (seg : List RandomEntry) (f : String) =>
        (∀ e ∈ seg, e.zim_file = f) ∧ seg.length ≤ q ∧
          (draw f 0 = .failure → seg = [])) segs files →
      ∀ e ∈ segs.flatten, e.zim_file ∈ files := by
  intro segs files h
  induction h with
  | nil =>
      intro e he
      simp at he
  | cons hpair htail ih =>
      intro e he
      rw [List.flatten_cons, List.mem_append] at he
      rcases he with he | he
      · exact List.mem_cons.mpr (Or.inl (hpair.1 e he))
      · exact List.mem_cons.mpr (Or.inr (ih e he))

/-- C6: for every nonempty archive list and requested count in `1..50`, the
distribution succeeds and returns the concatenation, in input order, of one
segment per archive, where every segment is tagged with its archive, no
segment exceeds the per-archive quota `max 1 (count / N)`, an archive whose
first draw raises contributes nothing (skipped, not fatal), and the total
never exceeds `count`. -/
theorem C6_random_entry_distribution (draw : String → Nat → DrawResult)
    (zim_files : List String) (count : Nat)
    (hne : zim_files ≠ []) (h1 : 1 ≤ count) (h50 : count ≤ 50) :
    ∃ (entries : List RandomEntry) (segs : List (List RandomEntry)),
      get_random_entries draw zim_files count = .ok entries ∧
        entries.length ≤ count ∧ entries = segs.flatten ∧
        List.Forall₂ (fun (seg : List RandomEntry) (zim_file : String) =>
          (∀ e ∈ seg, e.zim_file = zim_file) ∧
            seg.length ≤ max 1 (count / zim_files.length) ∧
            (draw zim_file 0 = .failure → seg = [])) segs zim_files ∧
        ∀ e ∈ entries, e.zim_file ∈ zim_files := by
  obtain ⟨segs, g1, g2, g3⟩ :=
    foldl_draw_spec draw count (max 1 (count / zim_files.length)) zim_files []
      (by simp)
  have hok : get_random_entries draw zim_files count = .ok segs.flatten := by
    rw [get_random_entries, if_neg (by omega), if_neg hne]
    simpa using g1
  exact ⟨segs.flatten, segs, hok, by simpa using g3, rfl, g2,
    forall₂_tag_mem _ draw segs zim_files g2⟩

/-- Witness for C6: three archives, count 10 (quota 3), an always-succeeding
oracle. -/
theorem C6_random_entry_distribution_witness :
    ∃ (entries : List RandomEntry) (segs : List (List RandomEntry)),
      get_random_entries
          (fun f _ => DrawResult.success ⟨f ++ "/p", "t", false, [], ""⟩)
          ["a", "b", "c"] 10 = .ok entries ∧
        entries.length ≤ 10 ∧ entries = segs.flatten := by
  obtain ⟨entries, segs, hok, hlen, hflat, -, -⟩ :=
    C6_random_entry_distribution
      (fun f _ => DrawResult.success ⟨f ++ "/p", "t", false, [], ""⟩)
      ["a", "b", "c"] 10 (by decide) (by decide) (by decide)
  exact ⟨entries, segs, hok, hlen, hflat⟩

theorem withinBase_iff : ∀ (b r : List String),
    withinBase b r = true ↔ b <+: r := by
  intro b
  induction b with
  | nil =>
      intro r
      simp [withinBase]
  | cons x bs ih =>
      intro r
      cases r with
      | nil =>
          simp [withinBase]
      | cons y rs =>
          simp [withinBase, Bool.and_eq_true, beq_iff_eq, ih,
            List.cons_prefix_cons]

theorem resolveComps_append_plain (cs : List String) (name : String)
    (h1 : name ≠ ".") (h2 : name ≠ "..") :
    resolveComps (cs ++ [name]) = resolveComps cs ++ [name] := by
  rw [resolveComps, List.foldl_append]
  simp [resolveStep, h1, h2, resolveComps]

/-- C7: validation rejects, with a raised `ValueError` (InvalidPath), every
input whose resolved joined path escapes the resolved root (this covers
`"../../etc/passwd"`-style traversal), and accepts a plain filename (one
component, not `"."` or `".."`) relative to the root, returning its resolved
absolute path directly under the root. -/
theorem C7_path_validation_traversal (base : List String) :
    (∀ p : PyPath,
      ¬ resolveComps base <+:
          resolveComps (if p.absolute then p.comps else base ++ p.comps) →
        validate_zim_file_path p base =
          .error "File path is outside allowed directory") ∧
      ∀ name : String, name ≠ "." → name ≠ ".." →
        validate_zim_file_path ⟨false, [name]⟩ base =
          .ok (resolveComps base ++ [name]) := by
  constructor
  · intro p hesc
    rw [validate_zim_file_path]
    have : withinBase (resolveComps base)
        (resolveComps (if p.absolute then p.comps else base ++ p.comps)) =
          false := by
      rw [← Bool.not_eq_true, withinBase_iff]
      exact hesc
    simp only [this, Bool.false_eq_true, if_false]
  · intro name h1 h2
    have hres : resolveComps (base ++ [name]) = resolveComps base ++ [name] :=
      resolveComps_append_plain base name h1 h2
    have hwb : withinBase (resolveComps base)
        (resolveComps (base ++ [name])) = true := by
      rw [withinBase_iff, hres]
      exact ⟨[name], rfl⟩
    rw [hres] at hwb
    simp only [validate_zim_file_path, Bool.false_eq_true, if_false, hres,
      hwb, if_true]

/-- Witness for C7: the root `/srv/zim` rejects `../../etc/passwd` and
accepts the plain filename `wiki.zim`. -/
theorem C7_path_validation_traversal_witness :
    validate_zim_file_path ⟨false, ["..", "..", "etc", "passwd"]⟩
        ["srv", "zim"] = .error "File path is outside allowed directory" ∧
      validate_zim_file_path ⟨false, ["wiki.zim"]⟩ ["srv", "zim"] =
        .ok ["srv", "zim", "wiki.zim"] := by
  constructor
  · exact (C7_path_validation_traversal ["srv", "zim"]).1
      ⟨false, ["..", "..", "etc", "passwd"]⟩ (by decide)
  · have h := (C7_path_validation_traversal ["srv", "zim"]).2 "wiki.zim"
      (by decide) (by decide)
    rw [h]
    rfl

/-- C8: for a file whose size exceeds `max_zim_file_size_mb` (and whose info
is not already cached), `_get_zim_file_info` returns a degraded descriptor —
zero counts, placeholder description, title equal to the filename, empty
metadata fields, both index flags false — and the result does not depend on
the `openArchive` collaborator at all: no archive handle is opened,
whatever the real archive's indexes are. -/
theorem C8_oversized_degraded_descriptor
    (statSize : List String → Option Nat)
    (openArchive : List String → Option ArchiveData)
    (fmtSize : Nat → String) (config : ZimServerConfig)
    (cache : List (String × ZimManagerFileInfo)) (filepath : List String)
    (size : Nat)
    (hfresh : lookupKey cache (pathName filepath) = none)
    (hstat : statSize filepath = some size)
    (hbig : config.max_zim_file_size_mb * (1024 * 1024) < size) :
    ∃ info : ZimManagerFileInfo,
      get_zim_file_info statSize openArchive fmtSize config cache filepath =
          .ok (info, cache ++ [(pathName filepath, info)]) ∧
        info.article_count = 0 ∧ info.media_count = 0 ∧
        info.title = pathName filepath ∧
        info.description =
          "Large ZIM file (skipped metadata loading due to size)" ∧
        info.language = "" ∧ info.creator = "" ∧ info.date = "" ∧
        info.has_fulltext_index = false ∧ info.has_title_index = false ∧
        ∀ openArchive' : List String → Option ArchiveData,
          get_zim_file_info statSize openArchive' fmtSize config cache
              filepath =
            get_zim_file_info statSize openArchive fmtSize config cache
              filepath := by
  refine ⟨⟨pathName filepath, filepath, size, fmtSize size, 0, 0,
      pathName filepath,
      "Large ZIM file (skipped metadata loading due to size)", "", "", "",
      false, false, ""⟩,
    ?_, rfl, rfl, rfl, rfl, rfl, rfl, rfl, rfl, rfl, ?_⟩
  · simp [get_zim_file_info, hfresh, hstat, hbig]
  · intro openArchive'
    simp [get_zim_file_info, hfresh, hstat, hbig]

/-- Witness for C8: a 3 MiB file against a 2 MB ceiling, with an
`openArchive` oracle that would fail if it were ever consulted. -/
theorem C8_oversized_degraded_descriptor_witness :
    ∃ info : ZimManagerFileInfo,
      get_zim_file_info (fun _ => some 3145728) (fun _ => none)
          (fun _ => "3.0 MB") ⟨["zim"], 1000, 5, 2⟩ []
          ["data", "big.zim"] =
          .ok (info, [("big.zim", info)]) ∧
        info.article_count = 0 ∧ info.has_fulltext_index = false := by
  obtain ⟨info, hok, hart, -, -, -, -, -, -, hft, -, -⟩ :=
    C8_oversized_degraded_descriptor (fun _ => some 3145728) (fun _ => none)
      (fun _ => "3.0 MB") ⟨["zim"], 1000, 5, 2⟩ [] ["data", "big.zim"]
      3145728 rfl rfl (by decide)
  exact ⟨info, hok, hart, hft⟩

/-- Inversion: a successful `_get_zim_file_info` on a filename that is not
yet cached appends exactly one cache binding — the computed info under the
file's name — and the info carries that filename. -/
theorem get_zim_file_info_fresh_inv
    (statSize : List String → Option Nat)
    (openArchive : List String → Option ArchiveData)
    (fmtSize : Nat → String) (config : ZimServerConfig)
    (cache : List (String × ZimManagerFileInfo)) (fp : List String)
    (hfresh : lookupKey cache (pathName fp) = none)
    {info : ZimManagerFileInfo}
    {cache' : List (String × ZimManagerFileInfo)}
    (h : get_zim_file_info statSize openArchive fmtSize config cache fp =
      .ok (info, cache')) :
    cache' = cache ++ [(pathName fp, info)] ∧
      info.filename = pathName fp := by
  rw [get_zim_file_info] at h
  simp only [hfresh] at h
  cases hstat : statSize fp with
  | none =>
      rw [hstat] at h
      cases h
  | some sz =>
      simp only [hstat] at h
      by_cases hbig : config.max_zim_file_size_mb * (1024 * 1024) < sz
      · rw [if_pos hbig] at h
        injection h with h1
        injection h1 with ha hb
        subst ha
        exact ⟨hb.symm, rfl⟩
      · rw [if_neg hbig] at h
        cases hopen : openArchive fp with
        | none =>
            simp only [hopen] at h
            cases h
        | some archive =>
            simp only [hopen] at h
            injection h with h1
            injection h1 with ha hb
            subst ha
            exact ⟨hb.symm, rfl⟩

/-- Loop invariant for the discovery fold: if the still-unprocessed paths
have pairwise-distinct, uncached filenames, and every already-collected info
is retrievable from the cache by its filename, these properties persist and
the collected filenames stay duplicate-free. -/
theorem discover_fold_inv
    (statSize : List String → Option Nat)
    (openArchive : List String → Option ArchiveData)
    (fmtSize : Nat → String) (config : ZimServerConfig) :
    ∀ (walked : List (List String)) (acc : List ZimManagerFileInfo)
      (cache : List (String × ZimManagerFileInfo)),
      (walked.map pathName).Nodup →
      (∀ fp ∈ walked, lookupKey cache (pathName fp) = none) →
      (∀ info ∈ acc, lookupKey cache info.filename = some info) →
      (acc.map ZimManagerFileInfo.filename).Nodup →
      ((walked.foldl (discover_step statSize openArchive fmtSize config)
            (acc, cache)).1.map ZimManagerFileInfo.filename).Nodup ∧
        ∀ info ∈ (walked.foldl
            (discover_step statSize openArchive fmtSize config)
            (acc, cache)).1,
          lookupKey (walked.foldl
              (discover_step statSize openArchive fmtSize config)
              (acc, cache)).2 info.filename = some info := by
  intro walked
  induction walked with
  | nil =>
      intro acc cache _ _ hacc haccnd
      exact ⟨haccnd, hacc⟩
  | cons fp rest ih =>
      intro acc cache hnd hfresh hacc haccnd
      have hndrest : (rest.map pathName).Nodup :=
        (List.nodup_cons.mp (by simpa using hnd)).2
      have hfphd : pathName fp ∉ rest.map pathName :=
        (List.nodup_cons.mp (by simpa using hnd)).1
      rw [List.foldl_cons]
      cases hg : get_zim_file_info statSize openArchive fmtSize config cache
          fp with
      | error msg =>
          have hstep : discover_step statSize openArchive fmtSize config
              (acc, cache) fp = (acc, cache) := by
            simp [discover_step, hg]
          rw [hstep]
          exact ih acc cache hndrest (fun q hq => hfresh q (List.mem_cons_of_mem _ hq))
            hacc haccnd
      | ok p =>
          obtain ⟨info, cache'⟩ := p
          obtain ⟨hc', hname⟩ := get_zim_file_info_fresh_inv statSize
            openArchive fmtSize config cache fp
            (hfresh fp (List.mem_cons_self _ _)) hg
          have hstep : discover_step statSize openArchive fmtSize config
              (acc, cache) fp = (acc ++ [info], cache') := by
            simp [discover_step, hg]
          rw [hstep]
          subst hc'
          have hnotacc : pathName fp ∉ acc.map ZimManagerFileInfo.filename := by
            intro hmem
            obtain ⟨info', hmem', hfn⟩ := List.mem_map.mp hmem
            have := hacc info' hmem'
            rw [hfn] at this
            rw [hfresh fp (List.mem_cons_self _ _)] at this
            cases this
          refine ih (acc ++ [info]) _ hndrest ?_ ?_ ?_
          · intro q hq
            have hne : pathName q ≠ pathName fp := by
              intro he
              exact hfphd (he ▸ List.mem_map_of_mem pathName hq)
            rw [lookupKey_append_none
              (hfresh q (List.mem_cons_of_mem _ hq))]
            simp [lookupKey, hne.symm]
          · intro info' hmem'
            rcases List.mem_append.mp hmem' with hold | hnew
            · exact lookupKey_append_some (hacc info' hold) _
            · have : info' = info := by simpa using hnew
              subst this
              rw [hname, lookupKey_append_none
                (hfresh fp (List.mem_cons_self _ _))]
              simp [lookupKey]
          · simp only [List.map_append, List.map_cons, List.map_nil]
            rw [List.nodup_append]
            refine ⟨haccnd, by simp, ?_⟩
            intro x hx
            simp only [List.mem_singleton]
            intro hxe
            subst hxe
            exact hnotacc (hname ▸ hx)

/-- C9 as stated is false on the code: with two same-named files in
different subdirectories, the discovery list contains two descriptors with
the same filename, and both are the first-discovered file's descriptor (the
second file's metadata is shadowed by the filename-keyed cache). -/
theorem C9_filename_uniqueness_counterexample :
    ((discover_zim_files (fun _ => some 3145728) (fun _ => none)
          (fun _ => "3.0 MB") ⟨["zim"], 1000, 5, 2⟩ []
          [["sub1", "a.zim"], ["sub2", "a.zim"]]).1.map
        ZimManagerFileInfo.filename) = ["a.zim", "a.zim"] ∧
      ¬ ((discover_zim_files (fun _ => some 3145728) (fun _ => none)
            (fun _ => "3.0 MB") ⟨["zim"], 1000, 5, 2⟩ []
            [["sub1", "a.zim"], ["sub2", "a.zim"]]).1.map
          ZimManagerFileInfo.filename).Nodup ∧
      ∀ info ∈ (discover_zim_files (fun _ => some 3145728) (fun _ => none)
          (fun _ => "3.0 MB") ⟨["zim"], 1000, 5, 2⟩ []
          [["sub1", "a.zim"], ["sub2", "a.zim"]]).1,
        info.filepath = ["sub1", "a.zim"] := by
  decide

/-- C9 amended: when the walked paths bear pairwise-distinct filenames, the
discovery list contains no two descriptors with the same filename and every
descriptor is retrievable from the descriptor cache by its filename; when
different subdirectories contain same-named files, the list instead contains
duplicate filename entries, all of them the first-discovered file's
descriptor. -/
theorem C9_filename_uniqueness_amended
    (statSize : List String → Option Nat)
    (openArchive : List String → Option ArchiveData)
    (fmtSize : Nat → String) (config : ZimServerConfig)
    (walked : List (List String))
    (hnd : (walked.map pathName).Nodup) :
    ((discover_zim_files statSize openArchive fmtSize config []
          walked).1.map ZimManagerFileInfo.filename).Nodup ∧
      ∀ info ∈ (discover_zim_files statSize openArchive fmtSize config []
          walked).1,
        lookupKey (discover_zim_files statSize openArchive fmtSize config []
            walked).2 info.filename = some info := by
  exact discover_fold_inv statSize openArchive fmtSize config walked [] []
    hnd (fun _ _ => rfl) (by simp) (by simp)

/-- Witness for the amended C9: two distinct filenames in different
subdirectories. -/
theorem C9_filename_uniqueness_amended_witness :
    ((discover_zim_files (fun _ => some 3145728) (fun _ => none)
          (fun _ => "3.0 MB") ⟨["zim"], 1000, 5, 2⟩ []
          [["sub1", "a.zim"], ["sub2", "b.zim"]]).1.map
        ZimManagerFileInfo.filename).Nodup := by
  exact (C9_filename_uniqueness_amended (fun _ => some 3145728)
    (fun _ => none) (fun _ => "3.0 MB") ⟨["zim"], 1000, 5, 2⟩
    [["sub1", "a.zim"], ["sub2", "b.zim"]] (by decide)).1

end ZimMcp
